import Mathlib

/-!
Verification of the condition-evaluation and dynamic-schema engine of the
umbraco-headless-forms repository.

The definitions below are a shallow embedding of the TypeScript sources
(first revision of each file under src/src/components):
  - predicates.ts        : isConditionFulfilled, areAllRulesFulfilled
  - umbraco-form-to-zod.ts : umbracoFormToZod, mapFieldToZod, coerceRuleValue,
                             omitFieldsBasedOnConditionFromData, processDef
  - utils.ts / field-utils.ts : getAllFields, getFieldById, getFieldByAlias,
                             getAllFieldsOnPage, filterFieldsByConditions
  - UmbracoForm.tsx      : isCurrentPageValid, handleNextPage

JavaScript runtime values flowing through this engine are modelled by
`JsValue`.  After coercion by the schema (coerceFormData / processDef) and by
the rule coercion (coerceRuleValue), the only values reachable in the engine
are: undefined, strings, booleans and arrays of strings, so the model covers
exactly those.  TypeScript exceptions are modelled with `Except String`.
-/

namespace UHF

/-- model of the JavaScript values the engine manipulates: `undefined`,
strings, booleans and arrays of strings (the shapes produced by
`coerceFormData` for the built-in field types). -/
inductive JsValue where
  | undefined : JsValue
  | str : String → JsValue
  | bool : Bool → JsValue
  | arr : List String → JsValue
deriving DecidableEq, Repr

/-- JavaScript truthiness of a `JsValue` (`!!v`): `undefined` and the empty
string and `false` are falsy, everything else (including an empty array,
which is an object) is truthy. -/
def truthy : JsValue → Bool
  | .undefined => false
  | .str s => !(s == "")
  | .bool b => b
  | .arr _ => true

/-- JavaScript `String(v)` / `v.toString()`: arrays join their elements with
commas, booleans print as true/false. -/
def jsToString : JsValue → String
  | .undefined => "undefined"
  | .str s => s
  | .bool b => if b then "true" else "false"
  | .arr xs => String.intercalate "," xs

/-- JavaScript strict equality on the reachable values.  Two arrays compare
by reference in JavaScript; a snapshot value and a freshly coerced rule value
are never the same object, so the array/array case is `false` here. -/
def jsStrictEq : JsValue → JsValue → Bool
  | .undefined, .undefined => true
  | .str a, .str b => a == b
  | .bool a, .bool b => a == b
  | _, _ => false

/-- lexicographic code-unit comparison of two character lists, the string
branch of the JavaScript abstract relational comparison. -/
def charListLt : List Char → List Char → Bool
  | [], [] => false
  | [], _ :: _ => true
  | _ :: _, [] => false
  | a :: as, b :: bs =>
    if a.val < b.val then true
    else if b.val < a.val then false
    else charListLt as bs

/-- decimal digits to a number; `none` models NaN. -/
def digitsVal (ds : List Char) : Option Nat :=
  match ds with
  | [] => none
  | _ =>
    if ds.all Char.isDigit then
      some (ds.foldl (fun a c => a * 10 + (c.toNat - '0'.toNat)) 0)
    else none

/-- JavaScript `ToNumber` on a string, restricted to the integer literals
that can actually reach a comparison in this engine; other strings map to
`none` (NaN), as they would in JavaScript for non-numeric text. -/
def strToNumber (s : String) : Option Int :=
  let t := s.trim
  match t.data with
  | [] => some 0
  | '-' :: ds => (digitsVal ds).map (fun n => -(n : Int))
  | '+' :: ds => (digitsVal ds).map (fun n => (n : Int))
  | ds => (digitsVal ds).map (fun n => (n : Int))

/-- JavaScript `ToPrimitive` with number hint: arrays become their joined
string, primitives are unchanged. -/
def jsToPrim : JsValue → JsValue
  | .arr xs => .str (String.intercalate "," xs)
  | v => v

/-- JavaScript `ToNumber` of a primitive value; `none` models NaN. -/
def jsToNumber : JsValue → Option Int
  | .undefined => none
  | .bool b => some (if b then 1 else 0)
  | .str s => strToNumber s
  | .arr xs => strToNumber (String.intercalate "," xs)

/-- JavaScript abstract relational comparison `x < y`: if both primitives are
strings, compare code units lexicographically, else compare as numbers where
NaN on either side gives `false`. -/
def jsLt (x y : JsValue) : Bool :=
  match jsToPrim x, jsToPrim y with
  | .str a, .str b => charListLt a.data b.data
  | px, py =>
    match jsToNumber px, jsToNumber py with
    | some m, some n => decide (m < n)
    | _, _ => false

/-- JavaScript `x > y`, which is the relational comparison with the operands
swapped. -/
def jsGt (x y : JsValue) : Bool := jsLt y x

/-- needle-in-haystack check on character lists (`String.prototype.includes`). -/
def strContainsAux (needle : List Char) : List Char → Bool
  | [] => needle.isEmpty
  | x :: t => needle.isPrefixOf (x :: t) || strContainsAux needle t

/-- JavaScript `s.includes(p)`. -/
def strContains (s p : String) : Bool := strContainsAux p.data s.data

/-- JavaScript `s.startsWith(p)`. -/
def strStartsWith (s p : String) : Bool := p.data.isPrefixOf s.data

/-- JavaScript `s.endsWith(p)`. -/
def strEndsWith (s p : String) : Bool := p.data.reverse.isPrefixOf s.data.reverse

/-- the 16 condition rule operators of `FieldConditionRuleOperator`. -/
inductive Operator where
  | Is | IsNot
  | GreaterThen | LessThen
  | Contains | ContainsIgnoreCase
  | StartsWith | StartsWithIgnoreCase
  | EndsWith | EndsWithIgnoreCase
  | NotContains | NotContainsIgnoreCase
  | NotStartsWith | NotStartsWithIgnoreCase
  | NotEndsWith | NotEndsWithIgnoreCase
deriving DecidableEq, Repr

/-- condition action type (`"Show" | "Hide"`); an unset or unrecognized
string is modelled by `Option.none` at the use site. -/
inductive ActionType where
  | Show | Hide
deriving DecidableEq, Repr

/-- condition logic type (`"All" | "Any"`). -/
inductive LogicType where
  | All | Any
deriving DecidableEq, Repr

/-- a condition rule (`FormConditionRuleDto`): target field id, operator and
literal comparison value, each possibly absent in the DTO. -/
structure Rule where
  field : Option String
  operator : Operator
  value : Option String
deriving DecidableEq, Repr

/-- a condition (`FormConditionDto`) attached to a page, fieldset or field. -/
structure Condition where
  actionType : Option ActionType
  logicType : Option LogicType
  rules : Option (List Rule)
deriving DecidableEq, Repr

/-- the closed set of built-in field type ids (`FieldTypeEnum`). -/
inductive FieldTypeId where
  | shortAnswer | longAnswer | checkbox | dropdownList | multipleChoice
  | dataConsent | fileUpload | recaptcha2 | recaptchaV3WithScore | date
  | password | richText | hiddenField | singleChoice | titleAndDescription
deriving DecidableEq, Repr

/-- a form field (`FormFieldDto`), restricted to the attributes the claims
exercise; the `pattern` and `maximumLength` settings of text fields are not
modelled (no claim concerns them). -/
structure FormField where
  id : Option String
  «alias» : Option String
  required : Bool
  requiredErrorMessage : Option String
  typeId : FieldTypeId
  condition : Option Condition
deriving DecidableEq, Repr

/-- a layout column (`FormFieldsetColumnDto`); columns carry no condition. -/
structure Column where
  fields : List FormField
deriving DecidableEq, Repr

/-- a fieldset (`FormFieldsetDto`). -/
structure Fieldset where
  columns : List Column
  condition : Option Condition
deriving DecidableEq, Repr

/-- a page (`FormPageDto`). -/
structure Page where
  fieldsets : List Fieldset
  condition : Option Condition
deriving DecidableEq, Repr

/-- a form (`FormDto`); only the page tree matters for the claims. -/
structure Form where
  pages : List Page
deriving DecidableEq, Repr

/-- a data snapshot (`Record<string, unknown>`), keyed by field alias. -/
abbrev Data := List (String × JsValue)

/-- reading `data[alias]`: a missing key is `undefined`. -/
def lookupData (data : Data) (k : String) : JsValue :=
  match List.find? (fun kv => kv.1 == k) data with
  | some kv => kv.2
  | none => .undefined

/-- `getAllFields` (utils.ts:25-50), cold-cache semantics: flatten pages,
then fieldsets, then columns, then fields, in document order. -/
def getAllFields (form : Form) : List FormField :=
  form.pages.flatMap fun p =>
    p.fieldsets.flatMap fun fs =>
      fs.columns.flatMap fun c => c.fields

/-- `getFieldById` (utils.ts:52-57), cold-cache semantics: first field whose
id equals the requested id. -/
def getFieldById (form : Form) (id : String) : Option FormField :=
  (getAllFields form).find? fun f => f.id == some id

/-- `getFieldByAlias` (utils.ts:59-64), cold-cache semantics. -/
def getFieldByAlias (form : Form) (a : String) : Option FormField :=
  (getAllFields form).find? fun f => f.«alias» == some a

/-- `getAllFieldsOnPage` (utils.ts:66-75), cold-cache semantics: all fields
of all columns of all fieldsets of the page. -/
def getAllFieldsOnPage (p : Page) : List FormField :=
  (p.fieldsets.flatMap fun fs => fs.columns).flatMap fun c => c.fields

/-- the base comparison kind of the zod type `mapFieldToZod` builds for a
field, i.e. what `findBaseDef` reports after unwrapping optional/array/effects
layers. -/
inductive ZodKind where
  | string | boolean | array | dateString
deriving DecidableEq, Repr

/-- `mapFieldToZod` (umbraco-form-to-zod.ts:44-124) reduced to the base kind
relevant to coercion; field types outside its match (and no caller-supplied
custom mapping, which the claims do not involve) throw. -/
def mapFieldBase (f : FormField) : Except String ZodKind :=
  match f.typeId with
  | .shortAnswer | .longAnswer | .fileUpload | .dropdownList | .singleChoice =>
    .ok .string
  | .multipleChoice => .ok .array
  | .date => .ok .dateString
  | .checkbox | .dataConsent | .recaptcha2 | .recaptchaV3WithScore =>
    .ok .boolean
  | _ => .error "Mapped zod type is undefined for field"

/-- `coerceRuleValue` (umbraco-form-to-zod.ts:193-211): when the field's base
zod type is boolean, the strings true/on map to `true` and false/off map to
`false`, any other value goes through `!!value`; for every other base type
the rule value is returned unchanged. -/
def coerceRuleValue (kind : ZodKind) (value : Option String) : JsValue :=
  match kind, value with
  | .boolean, some v =>
    if v = "true" ∨ v = "on" then .bool true
    else if v = "false" ∨ v = "off" then .bool false
    else .bool (!(v == ""))
  | .boolean, none => .bool false
  | _, some v => .str v
  | _, none => .undefined

/-- the `ZodBoolean` branch of `processDef` (umbraco-form-to-zod.ts:246-252),
the form-data coercion used by `coerceFormData` for checkbox, consent and
recaptcha fields: true and the empty string map to `true`, false maps to
`false`, everything else goes through `Boolean(value)`. -/
def processDefBool (value : String) : Bool :=
  if value = "true" ∨ value = "" then true
  else if value = "false" then false
  else !(value == "")

/-- `ruleValue.toLowerCase()` as used by the IgnoreCase operators: defined
for strings, a TypeError for a coerced boolean rule value (and unreachable
for undefined, which the truthiness guard excludes). -/
def lowerRule : JsValue → Except String String
  | .str s => .ok s.toLower
  | _ => .error "TypeError: ruleValue.toLowerCase is not a function"

/-- the operator switch of `areAllRulesFulfilled` (predicates.ts:79-156)
applied to a live field value and an already-coerced rule value. -/
def applyOperator (op : Operator) (fv rv : JsValue) : Except String Bool :=
  let guard := truthy fv && truthy rv
  match op with
  | .Is => .ok (jsStrictEq fv rv)
  | .IsNot => .ok (!(jsStrictEq fv rv))
  | .GreaterThen => .ok (if guard then jsGt fv rv else false)
  | .LessThen => .ok (if guard then jsLt fv rv else false)
  | .Contains =>
    .ok (if guard then strContains (jsToString fv) (jsToString rv) else false)
  | .ContainsIgnoreCase =>
    if guard then do
      let r ← lowerRule rv
      .ok (strContains (jsToString fv).toLower r)
    else .ok false
  | .StartsWith =>
    .ok (if guard then strStartsWith (jsToString fv) (jsToString rv) else false)
  | .StartsWithIgnoreCase =>
    if guard then do
      let r ← lowerRule rv
      .ok (strStartsWith (jsToString fv).toLower r)
    else .ok false
  | .EndsWith =>
    .ok (if guard then strEndsWith (jsToString fv) (jsToString rv) else false)
  | .EndsWithIgnoreCase =>
    if guard then do
      let r ← lowerRule rv
      .ok (strEndsWith (jsToString fv).toLower r)
    else .ok false
  | .NotContains =>
    .ok (if guard then !(strContains (jsToString fv) (jsToString rv)) else false)
  | .NotContainsIgnoreCase =>
    if guard then do
      let r ← lowerRule rv
      .ok (!(strContains (jsToString fv).toLower r))
    else .ok false
  | .NotStartsWith =>
    .ok (if guard then !(strStartsWith (jsToString fv) (jsToString rv)) else false)
  | .NotStartsWithIgnoreCase =>
    if guard then do
      let r ← lowerRule rv
      .ok (!(strStartsWith (jsToString fv).toLower r))
    else .ok false
  | .NotEndsWith =>
    .ok (if guard then !(strEndsWith (jsToString fv) (jsToString rv)) else false)
  | .NotEndsWithIgnoreCase =>
    if guard then do
      let r ← lowerRule rv
      .ok (!(strEndsWith (jsToString fv).toLower r))
    else .ok false

/-- evaluation of one rule, the body of the `rules.map` callback in
`areAllRulesFulfilled` (predicates.ts:64-156): resolve the target field by
id (throwing when it is missing or has no alias), derive its zod type, read
the live value from the snapshot, coerce the rule value, then apply the
operator. -/
def evalRule (form : Form) (data : Data) (rule : Rule) : Except String Bool :=
  match rule.field with
  | none => .error "Rule field is undefined"
  | some fid =>
    match getFieldById form fid with
    | none =>
      .error ("Rule target for field id: " ++ fid ++
        " could not be found in the form definition")
    | some targetField =>
      match targetField.«alias» with
      | none =>
        .error ("Rule target for field id: " ++ fid ++
          " could not be found in the form definition")
      | some a => do
        let base ← mapFieldBase targetField
        let fieldValue := lookupData data a
        let ruleValue := coerceRuleValue base rule.value
        applyOperator rule.operator fieldValue ruleValue

/-- `map` with an effectful function, modelling JavaScript `Array.map` with
a callback that can throw: elements are mapped in order and the first thrown
error aborts the whole map. -/
def mapE {α : Type} (f : α → Except String Bool) : List α → Except String (List Bool)
  | [] => .ok []
  | x :: xs => do
    let b ← f x
    let rest ← mapE f xs
    .ok (b :: rest)

/-- `areAllRulesFulfilled` (predicates.ts:55-168).  The TypeScript function
reads `dto?.condition`; the embedding takes that condition directly.  A
missing or empty rule list is fulfilled; otherwise every rule is evaluated
(JavaScript `Array.map` propagates the first thrown error) and the results
are combined by logic type, any other logic type giving `true`. -/
def areAllRulesFulfilled (cond : Option Condition) (form : Form) (data : Data) :
    Except String Bool :=
  match cond with
  | none => .ok true
  | some c =>
    match c.rules with
    | none => .ok true
    | some rules =>
      if rules.isEmpty then .ok true
      else do
        let applied ← mapE (evalRule form data) rules
        match c.logicType with
        | some .All => .ok (applied.all id)
        | some .Any => .ok (applied.any id)
        | none => .ok true

/-- `isConditionFulfilled` (predicates.ts:31-53): combine the rules first
(errors propagate), then apply the action type: Show keeps the combined
result, Hide negates it, anything else is visible. -/
def isConditionFulfilled (cond : Option Condition) (form : Form) (data : Data) :
    Except String Bool := do
  let isFulfilled ← areAllRulesFulfilled cond form data
  match cond with
  | some c =>
    match c.actionType with
    | some .Show => .ok isFulfilled
    | some .Hide => .ok (!isFulfilled)
    | none => .ok true
  | none => .ok true

/-- `filter` with an effectful predicate, modelling JavaScript `Array.filter`
with a callback that can throw: elements are tested in order and the first
thrown error aborts the whole filter. -/
def filterE {α : Type} (p : α → Except String Bool) : List α → Except String (List α)
  | [] => .ok []
  | x :: xs => do
    let b ← p x
    let rest ← filterE p xs
    .ok (if b then x :: rest else rest)

/-- `filterFieldsByConditions` (utils.ts:83-100): keep the pages whose
condition holds, then the fieldsets of those pages whose condition holds,
then the fields of their columns whose condition holds. -/
def filterFieldsByConditions (form : Form) (data : Data) :
    Except String (List FormField) := do
  let pages ← filterE (fun p => isConditionFulfilled p.condition form data) form.pages
  let fieldsets ← filterE (fun fs => isConditionFulfilled fs.condition form data)
    (pages.flatMap fun p => p.fieldsets)
  let fields := (fieldsets.flatMap fun fs => fs.columns).flatMap fun c => c.fields
  filterE (fun f => isConditionFulfilled f.condition form data) fields

/-- JavaScript object insertion `o[k] = v` on an association list: an
existing key keeps its position and gets the new value, a new key is
appended. -/
def upsert {α : Type} : List (String × α) → String × α → List (String × α)
  | [], kv => [kv]
  | (k, v) :: rest, kv =>
    if k = kv.1 then (k, kv.2) :: rest else (k, v) :: upsert rest kv

/-- `omitFieldsBasedOnConditionFromData` (umbraco-form-to-zod.ts:150-167):
keep only the entries of the parsed data whose field is currently visible
(fields with a falsy alias are skipped). -/
def omitFieldsBasedOnConditionFromData (form : Form) (data : Data) :
    Except String Data := do
  let visibleFields ← filterFieldsByConditions form data
  .ok (visibleFields.foldl (fun output f =>
    match f.«alias» with
    | some a => if a = "" then output else upsert output (a, lookupData data a)
    | none => output) [])

/-- the per-alias schema entry `mapFieldToZod` produces, reduced to what
parsing needs: the base kind, whether the required constraints were added and
which message they carry. -/
structure FieldSchema where
  kind : ZodKind
  required : Bool
  requiredErrorMessage : Option String
deriving DecidableEq, Repr

/-- builds the `FieldSchema` of a field, propagating the mapping error of
`mapFieldToZod` for field types outside the built-in closed set. -/
def fieldToSchema (f : FormField) : Except String FieldSchema := do
  let k ← mapFieldBase f
  .ok ⟨k, f.required, f.requiredErrorMessage⟩

/-- the shape of the zod object built by `umbracoFormToZod`
(umbraco-form-to-zod.ts:15-41): every field in document order except title
and description fields and fields with a falsy alias contributes one entry
keyed by its alias (a duplicate alias overwrites the earlier value in
place, as a JavaScript object spread does). -/
def shapeOfForm (form : Form) : Except String (List (String × FieldSchema)) :=
  (getAllFields form).foldlM (fun acc f =>
    if f.typeId = .titleAndDescription then .ok acc
    else
      match f.«alias» with
      | none => .ok acc
      | some a =>
        if a = "" then .ok acc
        else do
          let s ← fieldToSchema f
          .ok (upsert acc (a, s))) []

/-- a zod validation issue, reduced to its path (always the single field
alias here) and message. -/
structure Issue where
  path : String
  message : String
deriving DecidableEq, Repr

/-- approximation of the zod `z.string().date()` format check: four digits,
a dash, two digits, a dash, two digits (zod additionally checks month and
day ranges, which no claim depends on). -/
def isDateFmt (st : String) : Bool :=
  match st.data with
  | [a, b, c, d, '-', e, f, '-', g, h] =>
    a.isDigit && b.isDigit && c.isDigit && d.isDigit &&
    e.isDigit && f.isDigit && g.isDigit && h.isDigit
  | _ => false

/-- parsing one field's snapshot value against the zod type `mapFieldToZod`
built for it.  String fields coerce with `String(value)` and, when required,
carry a `min(1)` check with the field's required message; boolean fields
coerce with `Boolean(value)` and, when required, a refinement demanding
`true`; multiple choice is `z.array(z.string())`; date is `z.string().date()`
without coercion.  A non-required type is wrapped in `optional()`, which
lets `undefined` through untouched. -/
def parseField (a : String) (s : FieldSchema) (v : JsValue) : Except Issue JsValue :=
  match s.kind with
  | .string =>
    if s.required then
      let st := jsToString v
      if st.length < 1 then
        .error ⟨a, s.requiredErrorMessage.getD "String must contain at least 1 character(s)"⟩
      else .ok (.str st)
    else
      match v with
      | .undefined => .ok .undefined
      | _ => .ok (.str (jsToString v))
  | .boolean =>
    if s.required then
      if truthy v then .ok (.bool true)
      else .error ⟨a, s.requiredErrorMessage.getD "Invalid input"⟩
    else
      match v with
      | .undefined => .ok .undefined
      | _ => .ok (.bool (truthy v))
  | .array =>
    match v with
    | .undefined => if s.required then .error ⟨a, "Required"⟩ else .ok .undefined
    | .arr xs => .ok (.arr xs)
    | _ => .error ⟨a, "Expected array, received something else"⟩
  | .dateString =>
    match v with
    | .undefined => if s.required then .error ⟨a, "Required"⟩ else .ok .undefined
    | .str st =>
      if isDateFmt st then .ok (.str st) else .error ⟨a, "Invalid date"⟩
    | _ => .error ⟨a, "Expected string, received something else"⟩

/-- the `z.object` pass of the built schema: every shape key is parsed
against its field type (unknown snapshot keys are stripped); if any key
produced an issue the whole parse fails with all issues, in shape order. -/
def objectParse (shape : List (String × FieldSchema)) (data : Data) :
    Except (List Issue) Data :=
  let results := shape.map fun kv => (kv.1, parseField kv.1 kv.2 (lookupData data kv.1))
  let issues := results.filterMap fun kv =>
    match kv.2 with
    | .error i => some i
    | .ok _ => none
  match issues with
  | [] => .ok (results.filterMap fun kv =>
      match kv.2 with
      | .ok v => some (kv.1, v)
      | .error _ => none)
  | _ => .error issues

/-- `safeParse` of the schema built by `umbracoFormToZod`: zod validates the
object FIRST and only on success runs the `transform` that omits
condition-hidden fields; an exception thrown inside the transform (a
definition error from condition evaluation) escapes `safeParse`, hence the
outer `Except String`. -/
def zodSafeParse (form : Form) (data : Data) :
    Except String (Except (List Issue) Data) := do
  let shape ← shapeOfForm form
  match objectParse shape data with
  | .error issues => .ok (.error issues)
  | .ok value => do
    let out ← omitFieldsBasedOnConditionFromData form value
    .ok (.ok out)

/-- the issue list `validateFormData(...)` exposes to `isCurrentPageValid`
(UmbracoForm.tsx:93-116): empty on success, all issues on failure. -/
def validateIssues (form : Form) (data : Data) : Except String (List Issue) := do
  match ← zodSafeParse form data with
  | .ok _ => .ok []
  | .error issues => .ok issues

/-- `getFieldByZodIssue(form, issue)?.alias` — the alias of the field an
issue resolves to through its path, when both exist. -/
def issueFieldAlias (form : Form) (i : Issue) : Option String :=
  (getFieldByAlias form i.path).bind fun f => f.«alias»

/-- the per-page cache entry `getAllFields` (utils.ts:25-50) leaves behind:
`cachedFieldsByPage.set(page, column.fields)` runs once per column while
flattening, so after the pass the entry holds the fields of the LAST column
traversed on the page; a page with no columns gets no entry. -/
def pageCacheAfterFlatten (p : Page) : Option (List FormField) :=
  ((p.fieldsets.flatMap fun fs => fs.columns).getLast?).map fun c => c.fields

/-- `getAllFieldsOnPage` (utils.ts:66-75) after the memoizing flattening
pass has run: the cached entry when one exists, the direct traversal
otherwise. -/
def getAllFieldsOnPageCached (p : Page) : List FormField :=
  match pageCacheAfterFlatten p with
  | some cached => cached
  | none => getAllFieldsOnPage p

/-- `getAllFieldsOnPage(form?.pages?.[currentPage])` as `isCurrentPageValid`
actually reaches it: with a WARM per-page cache.  Before the page lookup at
UmbracoForm.tsx:142 runs, every validation issue has been resolved through
`getFieldByZodIssue → getFieldByAlias → getAllFields`, which populates
`cachedFieldsByPage`; so whenever the issue list is non-empty the lookup
takes the cached branch (the last traversed column's fields).  When the
issue list is empty the cache may still be cold and the direct traversal
runs, but then the page-validity result is `true` whatever the field list,
so the always-warm model is observationally exact.  An out-of-range index
gives an empty list (the TypeScript helper returns `[]` for an undefined
page). -/
def pageFieldsOf (form : Form) (cp : Nat) : List FormField :=
  match form.pages.get? cp with
  | some p => getAllFieldsOnPageCached p
  | none => []

/-- `isCurrentPageValid` (UmbracoForm.tsx:118-173), its page-advance
decision: compute the visible fields of the whole form, keep only the
validation issues whose field is visible, keep only the visible fields of
the current page — read through the warm page cache, see `pageFieldsOf` —
and report invalid exactly when some of those fields has its alias among
the issue-bearing aliases.  (The `setAttemptCount` and `setSummaryIssues`
side effects are accounted for in `handleNextPage`.) -/
def isCurrentPageValid (form : Form) (data : Data) (currentPage : Nat) :
    Except String Bool := do
  let visibleFields ← filterFieldsByConditions form data
  let fieldsWithConditionsMet := visibleFields.map fun f => f.«alias»
  let allIssues ← validateIssues form data
  let allFieldIssues := allIssues.filter fun i =>
    fieldsWithConditionsMet.contains (issueFieldAlias form i)
  let fieldAliasesWithIssues := allFieldIssues.map fun i => issueFieldAlias form i
  let fieldsOnPage := (pageFieldsOf form currentPage).filter fun f =>
    fieldsWithConditionsMet.contains f.«alias»
  .ok (!(fieldsOnPage.any fun f => fieldAliasesWithIssues.contains f.«alias»))

/-- the per-session progression state touched by the next-page transition. -/
structure ProgState where
  currentPage : Nat
  attemptCount : Nat
deriving DecidableEq, Repr

/-- `handleNextPage` (UmbracoForm.tsx:256-283) on the validating path
(`shouldValidate` with validateMode onSubmit or all): a blocked transition
leaves the page index unchanged and increments the attempt counter twice
(once inside `isCurrentPageValid`, once in `handleNextPage` itself); a
successful check advances the page index and resets the attempt counter to
zero.  Without validation the page index advances unconditionally. -/
def handleNextPage (form : Form) (data : Data) (shouldValidate : Bool)
    (s : ProgState) : Except String ProgState :=
  if shouldValidate then do
    let valid ← isCurrentPageValid form data s.currentPage
    if valid then .ok ⟨s.currentPage + 1, 0⟩
    else .ok ⟨s.currentPage, s.attemptCount + 2⟩
  else .ok ⟨s.currentPage + 1, s.attemptCount⟩

/-! Theorems. -/

/-- computation rule of the Except monad: binding a success applies the
continuation. -/
theorem exceptBind_ok {α β : Type} (a : α) (k : α → Except String β) :
    (Except.ok a >>= k) = k a := rfl

/-- computation rule of the Except monad: binding an error propagates it. -/
theorem exceptBind_error {α β : Type} (e : String) (k : α → Except String β) :
    ((Except.error e : Except String α) >>= k) = Except.error e := rfl

/-- the positive counterpart of each negated string operator. -/
def positiveCounterpart : Operator → Option Operator
  | .NotContains => some .Contains
  | .NotContainsIgnoreCase => some .ContainsIgnoreCase
  | .NotStartsWith => some .StartsWith
  | .NotStartsWithIgnoreCase => some .StartsWithIgnoreCase
  | .NotEndsWith => some .EndsWith
  | .NotEndsWithIgnoreCase => some .EndsWithIgnoreCase
  | _ => none

/-- C2 counterexample: with a truthy field value and a missing rule value,
`Contains` evaluates false and `NotContains` ALSO evaluates false — not true
as the claim requires of the negated form, so the negated operator is not
the pointwise negation of its positive counterpart. -/
theorem c2_counterexample :
    coerceRuleValue .string none = .undefined ∧
    applyOperator .Contains (.str "abc") .undefined = .ok false ∧
    applyOperator .NotContains (.str "abc") .undefined = .ok false :=
  ⟨rfl, rfl, rfl⟩

/-- C2 amended: each negated string operator equals the negation of its
positive counterpart only when BOTH the field value and the rule value are
truthy (including the case where both throw the same TypeError); when either
side is falsy — in particular when the rule value is missing — the positive
and the negated form both evaluate to false, because the falsy guard is
duplicated in every branch rather than implemented as a negation wrapper. -/
theorem c2_negation_guarded (nop pop : Operator) (fv rv : JsValue)
    (hpair : positiveCounterpart nop = some pop) :
    ((truthy fv && truthy rv) = true →
      applyOperator nop fv rv = Except.map Bool.not (applyOperator pop fv rv)) ∧
    ((truthy fv && truthy rv) = false →
      applyOperator nop fv rv = .ok false ∧ applyOperator pop fv rv = .ok false) := by
  cases nop <;> simp only [positiveCounterpart, Option.some.injEq] at hpair <;>
    first
    | exact absurd hpair (by simp)
    | (subst hpair
       refine ⟨fun hg => ?_, fun hg => ?_⟩ <;>
         cases hr : lowerRule rv <;>
           simp [applyOperator, hg, hr, exceptBind_ok, exceptBind_error, Except.map])

/-- C2 witness at a concrete input. -/
theorem c2_negation_guarded_witness :
    positiveCounterpart .NotEndsWithIgnoreCase = some .EndsWithIgnoreCase ∧
    (((truthy (JsValue.str "abc") && truthy (JsValue.str "BC")) = true →
      applyOperator .NotEndsWithIgnoreCase (.str "abc") (.str "BC") =
        Except.map Bool.not (applyOperator .EndsWithIgnoreCase (.str "abc") (.str "BC"))) ∧
    ((truthy (JsValue.str "abc") && truthy (JsValue.str "BC")) = false →
      applyOperator .NotEndsWithIgnoreCase (.str "abc") (.str "BC") = .ok false ∧
      applyOperator .EndsWithIgnoreCase (.str "abc") (.str "BC") = .ok false)) :=
  ⟨rfl, c2_negation_guarded _ _ _ _ rfl⟩

/-- C3 counterexample: the raw input off is coerced to `false` by the rule
value coercion but to `true` by the form-data coercion of the schema builder
(whose boolean branch falls through to `Boolean(value)`, and the string off
is truthy), so the two coercion paths disagree on off. -/
theorem c3_counterexample :
    coerceRuleValue .boolean (some "off") = .bool false ∧
    JsValue.bool (processDefBool "off") = .bool true :=
  ⟨rfl, rfl⟩

/-- C3 amended: for a boolean field, the rule-value coercion and the schema
builder's form-data coercion agree on a raw string input exactly when it is
neither off nor the empty string: on and true map to true on both paths and
false maps to false on both, but off (and the empty string) map to false on
the rule path and to true on the form-data path. -/
theorem c3_boolean_coercions_agree_iff (v : String) :
    coerceRuleValue .boolean (some v) = .bool (processDefBool v) ↔
    (v ≠ "off" ∧ v ≠ "") := by
  by_cases h1 : v = "true"
  · subst h1; decide
  · by_cases h2 : v = "on"
    · subst h2; decide
    · by_cases h3 : v = "false"
      · subst h3; decide
      · by_cases h4 : v = "off"
        · subst h4; decide
        · by_cases h5 : v = ""
          · subst h5; decide
          · simp [coerceRuleValue, processDefBool, h1, h2, h3, h4, h5]

/-- characterization of the strict equality the `Is` operator actually
performs: both sides must be the same kind with the same contents (two
distinct arrays are never strictly equal in JavaScript). -/
def strictEqSpec (fv rv : JsValue) : Prop :=
  (∃ s, fv = .str s ∧ rv = .str s) ∨ (∃ b, fv = .bool b ∧ rv = .bool b) ∨
  (fv = .undefined ∧ rv = .undefined)

/-- C4 counterexample: a string field value true and a boolean-coerced rule
value `true` have identical stringifications, yet `Is` evaluates false —
the code compares with strict equality and never stringifies the sides. -/
theorem c4_counterexample :
    coerceRuleValue .boolean (some "true") = .bool true ∧
    jsToString (.str "true") = jsToString (.bool true) ∧
    applyOperator .Is (.str "true") (.bool true) = .ok false :=
  ⟨rfl, rfl, rfl⟩

/-- C4 amended: `Is` compares the live field value and the coerced rule
value with JavaScript strict equality — true exactly when both are the same
kind with equal contents, with no stringification — and `IsNot` is exactly
its pointwise negation on the same inputs. -/
theorem c4_is_strict_equality (fv rv : JsValue) :
    applyOperator .IsNot fv rv = Except.map Bool.not (applyOperator .Is fv rv) ∧
    (applyOperator .Is fv rv = .ok true ↔ strictEqSpec fv rv) := by
  constructor
  · simp [applyOperator, Except.map]
  · simp only [applyOperator]
    cases fv <;> cases rv <;> simp [jsStrictEq, strictEqSpec] <;> exact eq_comm

/-- C7 confirmed: whenever the combined rule result exists, Show makes the
entity visible exactly when the rules are fulfilled, Hide negates that, and
an unset action type always yields visible (fail open). -/
theorem c7_action_type (cond : Option Condition) (form : Form) (data : Data)
    (f : Bool) (h : areAllRulesFulfilled cond form data = .ok f) :
    ((cond.bind fun c => c.actionType) = some .Show →
      isConditionFulfilled cond form data = .ok f) ∧
    ((cond.bind fun c => c.actionType) = some .Hide →
      isConditionFulfilled cond form data = .ok (!f)) ∧
    ((cond.bind fun c => c.actionType) = none →
      isConditionFulfilled cond form data = .ok true) := by
  cases cond with
  | none =>
    refine ⟨fun ha => by simp at ha, fun ha => by simp at ha, fun _ => ?_⟩
    simp [isConditionFulfilled, h, exceptBind_ok]
  | some c =>
    refine ⟨fun ha => ?_, fun ha => ?_, fun ha => ?_⟩
    · have ha2 : c.actionType = some .Show := ha
      simp [isConditionFulfilled, h, exceptBind_ok, ha2]
    · have ha2 : c.actionType = some .Hide := ha
      simp [isConditionFulfilled, h, exceptBind_ok, ha2]
    · have ha2 : c.actionType = none := ha
      simp [isConditionFulfilled, h, exceptBind_ok, ha2]

/-- C7 witness at a concrete input: a Hide condition whose single rule is
fulfilled makes the entity invisible. -/
theorem c7_action_type_witness :
    areAllRulesFulfilled (some ⟨some .Hide, some .All, some []⟩)
      (Form.mk []) [] = .ok true ∧
    isConditionFulfilled (some ⟨some .Hide, some .All, some []⟩)
      (Form.mk []) [] = .ok false :=
  ⟨rfl, by
    have h := c7_action_type (some ⟨some .Hide, some .All, some []⟩)
      (Form.mk []) [] true rfl
    exact h.2.1 rfl⟩

/-- C8 confirmed: for GreaterThen and LessThen, a falsy side (empty or
undefined) makes the rule evaluate false, and the operator application
always returns a result — it never throws, whatever the kinds of the two
values. -/
theorem c8_comparison_safe_false (op : Operator) (fv rv : JsValue)
    (hop : op = .GreaterThen ∨ op = .LessThen) :
    ((truthy fv = false ∨ truthy rv = false) →
      applyOperator op fv rv = .ok false) ∧
    (∃ b, applyOperator op fv rv = .ok b) := by
  rcases hop with h | h <;> subst h <;>
    refine ⟨fun hf => ?_, ⟨_, rfl⟩⟩ <;>
      rcases hf with h | h <;> simp [applyOperator, h]

/-- C8 witness at a concrete input: an undefined field value makes
GreaterThen false. -/
theorem c8_comparison_safe_false_witness :
    ((truthy JsValue.undefined = false ∨ truthy (JsValue.str "5") = false) →
      applyOperator .GreaterThen .undefined (.str "5") = .ok false) ∧
    (∃ b, applyOperator .GreaterThen .undefined (.str "5") = .ok b) :=
  c8_comparison_safe_false .GreaterThen .undefined (.str "5") (Or.inl rfl)

/-- an element whose evaluation throws makes the whole map throw. -/
theorem mapE_error_of_mem {α : Type} {f : α → Except String Bool} {l : List α}
    {x : α} (hx : x ∈ l) {e : String} (he : f x = .error e) :
    ∃ msg, mapE f l = .error msg := by
  induction l with
  | nil => cases hx
  | cons y ys ih =>
    cases hx with
    | head => exact ⟨e, by simp [mapE, he, exceptBind_error]⟩
    | tail _ hmem =>
      cases hfy : f y with
      | error e2 => exact ⟨e2, by simp [mapE, hfy, exceptBind_error]⟩
      | ok b =>
        obtain ⟨msg, hmsg⟩ := ih hmem
        exact ⟨msg, by simp [mapE, hfy, hmsg, exceptBind_ok, exceptBind_error]⟩

/-- a successful map collects exactly the per-element successes: all results
true means every element evaluated to true. -/
theorem mapE_ok_all {α : Type} {f : α → Except String Bool} :
    ∀ {l : List α} {bs : List Bool}, mapE f l = .ok bs →
      (bs.all id = true ↔ ∀ x ∈ l, f x = .ok true) := by
  intro l
  induction l with
  | nil => intro bs h; simp [mapE] at h; subst h; simp
  | cons y ys ih =>
    intro bs h
    cases hfy : f y with
    | error e => simp [mapE, hfy, exceptBind_error] at h
    | ok b =>
      cases hrest : mapE f ys with
      | error e => simp [mapE, hfy, hrest, exceptBind_ok, exceptBind_error] at h
      | ok tl =>
        simp only [mapE, hfy, hrest, exceptBind_ok, Except.ok.injEq] at h
        subst h
        simp only [List.all_cons, List.mem_cons, Bool.and_eq_true, id_eq]
        rw [ih hrest]
        constructor
        · rintro ⟨hb, hall⟩ x (hx | hx)
          · subst hx; rw [hfy, hb]
          · exact hall x hx
        · intro hall
          refine ⟨?_, fun x hx => hall x (Or.inr hx)⟩
          have hy := hall y (Or.inl rfl)
          rw [hfy] at hy
          exact Except.ok.inj hy

/-- a successful map collects exactly the per-element successes: some result
true means some element evaluated to true. -/
theorem mapE_ok_any {α : Type} {f : α → Except String Bool} :
    ∀ {l : List α} {bs : List Bool}, mapE f l = .ok bs →
      (bs.any id = true ↔ ∃ x ∈ l, f x = .ok true) := by
  intro l
  induction l with
  | nil => intro bs h; simp [mapE] at h; subst h; simp
  | cons y ys ih =>
    intro bs h
    cases hfy : f y with
    | error e => simp [mapE, hfy, exceptBind_error] at h
    | ok b =>
      cases hrest : mapE f ys with
      | error e => simp [mapE, hfy, hrest, exceptBind_ok, exceptBind_error] at h
      | ok tl =>
        simp only [mapE, hfy, hrest, exceptBind_ok, Except.ok.injEq] at h
        subst h
        simp only [List.any_cons, List.mem_cons, Bool.or_eq_true, id_eq]
        rw [ih hrest]
        constructor
        · rintro (hb | ⟨x, hx, hfx⟩)
          · exact ⟨y, Or.inl rfl, by rw [hfy, hb]⟩
          · exact ⟨x, Or.inr hx, hfx⟩
        · rintro ⟨x, (hx | hx), hfx⟩
          · subst hx; rw [hfy] at hfx; exact Or.inl (Except.ok.inj hfx)
          · exact Or.inr ⟨x, hx, hfx⟩

/-- for a non-empty rule list whose rules all evaluate, the rule combination
reduces to the logic-type dispatch over the collected results. -/
theorem areAllRules_nonempty_eval {c : Condition} {form : Form} {data : Data}
    {rules : List Rule} {bs : List Bool}
    (hcr : c.rules = some rules) (hne : rules ≠ [])
    (hmap : mapE (evalRule form data) rules = .ok bs) :
    areAllRulesFulfilled (some c) form data =
      (match c.logicType with
       | some .All => .ok (bs.all id)
       | some .Any => .ok (bs.any id)
       | none => .ok true) := by
  cases rules with
  | nil => exact absurd rfl hne
  | cons r0 rtl =>
    simp [areAllRulesFulfilled, hcr, hmap, exceptBind_ok]

/-- C6 confirmed: a missing or empty rule list is fulfilled regardless of
logic type; for a non-empty rule list whose rules all evaluate, All is
fulfilled exactly when every rule is individually true and Any exactly when
at least one rule is true. -/
theorem c6_logic_combination (c : Condition) (form : Form) (data : Data)
    (rs : List Rule) (bs : List Bool)
    (hrs : c.rules.getD [] = rs)
    (hmap : mapE (evalRule form data) rs = .ok bs) :
    (rs = [] → areAllRulesFulfilled (some c) form data = .ok true) ∧
    (c.logicType = some .All → rs ≠ [] →
      (areAllRulesFulfilled (some c) form data = .ok true ↔
        ∀ r ∈ rs, evalRule form data r = .ok true)) ∧
    (c.logicType = some .Any → rs ≠ [] →
      (areAllRulesFulfilled (some c) form data = .ok true ↔
        ∃ r ∈ rs, evalRule form data r = .ok true)) := by
  cases hcr : c.rules with
  | none =>
    rw [hcr] at hrs
    simp only [Option.getD_none] at hrs
    subst hrs
    exact ⟨fun _ => by simp [areAllRulesFulfilled, hcr],
      fun _ hne => absurd rfl hne, fun _ hne => absurd rfl hne⟩
  | some rules =>
    rw [hcr] at hrs
    simp only [Option.getD_some] at hrs
    subst hrs
    refine ⟨fun hempty => ?_, fun hlt hne => ?_, fun hlt hne => ?_⟩
    · subst hempty
      simp [areAllRulesFulfilled, hcr]
    · rw [areAllRules_nonempty_eval hcr hne hmap]
      simp only [hlt, Except.ok.injEq]
      exact mapE_ok_all hmap
    · rw [areAllRules_nonempty_eval hcr hne hmap]
      simp only [hlt, Except.ok.injEq]
      exact mapE_ok_any hmap

/-- C6 witness at a concrete input: a two-rule All condition over a one-field
form, where one rule holds and the other does not. -/
theorem c6_logic_combination_witness :
    (Condition.mk (some .Show) (some .All)
        (some [⟨some "f1", .Is, some "yes"⟩, ⟨some "f1", .Is, some "no"⟩])).rules.getD []
      = [⟨some "f1", .Is, some "yes"⟩, ⟨some "f1", .Is, some "no"⟩] ∧
    mapE (evalRule (Form.mk [⟨[⟨[⟨[⟨some "f1", some "a1", false, none, .shortAnswer, none⟩]⟩], none⟩], none⟩])
        [("a1", .str "yes")])
        [⟨some "f1", .Is, some "yes"⟩, ⟨some "f1", .Is, some "no"⟩] = .ok [true, false] ∧
    ¬(areAllRulesFulfilled
        (some ⟨some .Show, some .All,
          some [⟨some "f1", .Is, some "yes"⟩, ⟨some "f1", .Is, some "no"⟩]⟩)
        (Form.mk [⟨[⟨[⟨[⟨some "f1", some "a1", false, none, .shortAnswer, none⟩]⟩], none⟩], none⟩])
        [("a1", .str "yes")] = .ok true) := by
  refine ⟨rfl, rfl, ?_⟩
  have h := c6_logic_combination
    ⟨some .Show, some .All,
      some [⟨some "f1", .Is, some "yes"⟩, ⟨some "f1", .Is, some "no"⟩]⟩
    (Form.mk [⟨[⟨[⟨[⟨some "f1", some "a1", false, none, .shortAnswer, none⟩]⟩], none⟩], none⟩])
    [("a1", .str "yes")]
    [⟨some "f1", .Is, some "yes"⟩, ⟨some "f1", .Is, some "no"⟩]
    [true, false] rfl rfl
  intro hok
  have hall := (h.2.1 rfl (by simp)).mp hok
  have hbad := hall ⟨some "f1", .Is, some "no"⟩ (by simp)
  have hfalse : evalRule
      (Form.mk [⟨[⟨[⟨[⟨some "f1", some "a1", false, none, .shortAnswer, none⟩]⟩], none⟩], none⟩])
      [("a1", .str "yes")] ⟨some "f1", .Is, some "no"⟩ = .ok false := rfl
  rw [hfalse] at hbad
  exact Bool.noConfusion (Except.ok.inj hbad)

/-- C9 confirmed: a rule whose target field id resolves to no field of the
form (or to a field without an alias) makes both the rule combination and
the full condition evaluation throw — the malformed definition is surfaced,
never silently evaluated. -/
theorem c9_dangling_rule_fatal (c : Condition) (form : Form) (data : Data)
    (rs : List Rule) (r : Rule) (fid : String)
    (hrs : c.rules = some rs) (hmem : r ∈ rs) (hf : r.field = some fid)
    (hmiss : ((getFieldById form fid).all fun tf => tf.«alias».isNone) = true) :
    (∃ e, areAllRulesFulfilled (some c) form data = .error e) ∧
    (∃ e, isConditionFulfilled (some c) form data = .error e) := by
  have hrule : ∃ e, evalRule form data r = .error e := by
    cases hg : getFieldById form fid with
    | none =>
      exact ⟨"Rule target for field id: " ++ fid ++
        " could not be found in the form definition", by simp only [evalRule, hf, hg]⟩
    | some tf =>
      rw [hg] at hmiss
      simp only [Option.all] at hmiss
      cases hal : tf.«alias» with
      | none =>
        exact ⟨"Rule target for field id: " ++ fid ++
          " could not be found in the form definition", by simp only [evalRule, hf, hg, hal]⟩
      | some a => rw [hal] at hmiss; simp at hmiss
  obtain ⟨e, he⟩ := hrule
  obtain ⟨msg, hmsg⟩ := mapE_error_of_mem hmem he
  have hne2 : rs.isEmpty = false := by
    cases rs with
    | nil => cases hmem
    | cons a l => rfl
  have hall : areAllRulesFulfilled (some c) form data = .error msg := by
    simp [areAllRulesFulfilled, hrs, hne2, hmsg, exceptBind_error]
  refine ⟨⟨msg, hall⟩, ⟨msg, ?_⟩⟩
  simp [isConditionFulfilled, hall, exceptBind_error]

/-- C9 witness at a concrete input: a rule targeting a field id absent from
the form definition. -/
theorem c9_dangling_rule_fatal_witness :
    (Condition.mk (some .Show) (some .All) (some [⟨some "nope", .Is, some "x"⟩])).rules
      = some [⟨some "nope", .Is, some "x"⟩] ∧
    (⟨some "nope", .Is, some "x"⟩ : Rule) ∈ [(⟨some "nope", .Is, some "x"⟩ : Rule)] ∧
    (Rule.field ⟨some "nope", .Is, some "x"⟩ = some "nope") ∧
    ((getFieldById (Form.mk [⟨[⟨[⟨[⟨some "f1", some "a1", false, none, .shortAnswer, none⟩]⟩], none⟩], none⟩]) "nope").all
      fun tf => tf.«alias».isNone) = true ∧
    ((∃ e, areAllRulesFulfilled
        (some ⟨some .Show, some .All, some [⟨some "nope", .Is, some "x"⟩]⟩)
        (Form.mk [⟨[⟨[⟨[⟨some "f1", some "a1", false, none, .shortAnswer, none⟩]⟩], none⟩], none⟩])
        [] = .error e) ∧
     (∃ e, isConditionFulfilled
        (some ⟨some .Show, some .All, some [⟨some "nope", .Is, some "x"⟩]⟩)
        (Form.mk [⟨[⟨[⟨[⟨some "f1", some "a1", false, none, .shortAnswer, none⟩]⟩], none⟩], none⟩])
        [] = .error e)) := by
  refine ⟨rfl, by decide, rfl, by decide, ?_⟩
  exact c9_dangling_rule_fatal
    ⟨some .Show, some .All, some [⟨some "nope", .Is, some "x"⟩]⟩
    (Form.mk [⟨[⟨[⟨[⟨some "f1", some "a1", false, none, .shortAnswer, none⟩]⟩], none⟩], none⟩])
    [] [⟨some "nope", .Is, some "x"⟩] ⟨some "nope", .Is, some "x"⟩ "nope"
    rfl (by decide) rfl (by decide)

/-- C1 failing input, the checkbox of the spec's concrete scenario: a
non-required boolean field the snapshot holds as `false`. -/
def c1tick : FormField :=
  ⟨some "f1", some "tickToAddMoreInfo", false, none, .checkbox, none⟩

/-- C1 failing input, the required short-answer field, shown only when the
checkbox rule is met. -/
def c1moreInfo : FormField :=
  ⟨some "f2", some "moreInfo", true, some "Please provide a value for More info",
    .shortAnswer, some ⟨some .Show, some .All, some [⟨some "f1", .Is, some "on"⟩]⟩⟩

/-- C1 failing input, a one-page form holding both fields. -/
def c1form : Form := ⟨[⟨[⟨[⟨[c1tick, c1moreInfo]⟩], none⟩], none⟩]⟩

/-- C1 failing input, the snapshot: checkbox unticked, required field empty. -/
def c1data : Data := [("tickToAddMoreInfo", .bool false), ("moreInfo", .str "")]

/-- C1 code bug, evaluated at the failing input: the required field is
hidden (its Show condition is unmet and it is absent from the visible-field
set), yet running the built schema on the snapshot DOES produce a validation
issue for it — zod validates the object before the transform that omits
hidden fields can drop them, contradicting the code's own comment that
invisible fields are not validated. -/
theorem c1_hidden_required_field_still_validated :
    isConditionFulfilled c1moreInfo.condition c1form c1data = .ok false ∧
    filterFieldsByConditions c1form c1data = .ok [c1tick] ∧
    zodSafeParse c1form c1data =
      .ok (.error [⟨"moreInfo", "Please provide a value for More info"⟩]) :=
  ⟨rfl, rfl, rfl⟩

/-- C10 failing input: two fields in two different columns of the same
page. -/
def c10fieldA : FormField := ⟨some "fa", some "aa", false, none, .shortAnswer, none⟩

/-- C10 failing input: the second field, in the page's second column. -/
def c10fieldB : FormField := ⟨some "fb", some "ab", false, none, .shortAnswer, none⟩

/-- C10 failing input: a page whose single fieldset has two columns with one
field each. -/
def c10page : Page := ⟨[⟨[⟨[c10fieldA]⟩, ⟨[c10fieldB]⟩], none⟩], none⟩

/-- C10 code bug, evaluated at the failing input: before the flattening pass
runs, the fields-on-page lookup returns both fields by direct traversal, but
the flattening pass writes the page cache once per column, so afterwards the
memoized lookup returns only the last column's fields — stale with respect
to the immutable definition. -/
theorem c10_page_cache_stale :
    getAllFieldsOnPage c10page = [c10fieldA, c10fieldB] ∧
    pageCacheAfterFlatten c10page = some [c10fieldB] ∧
    getAllFieldsOnPageCached c10page = [c10fieldB] :=
  ⟨rfl, rfl, rfl⟩

/-- C5 failing input: a required field in the FIRST column of the current
page, left empty in the snapshot (so it carries the only validation issue). -/
def c5fx : FormField :=
  ⟨some "ix", some "qx", true, some "qx required", .shortAnswer, none⟩

/-- C5 failing input: an optional field in the second column of the same
page. -/
def c5fy : FormField := ⟨some "iy", some "qy", false, none, .shortAnswer, none⟩

/-- C5 failing input: a field on the second page. -/
def c5fz : FormField := ⟨some "iz", some "qz", false, none, .shortAnswer, none⟩

/-- C5 failing input: the current page, one fieldset with two columns. -/
def c5page0 : Page := ⟨[⟨[⟨[c5fx]⟩, ⟨[c5fy]⟩], none⟩], none⟩

/-- C5 failing input: the two-page form. -/
def c5form : Form := ⟨[c5page0, ⟨[⟨[⟨[c5fz]⟩], none⟩], none⟩]⟩

/-- C5 failing input: the snapshot — the required first-column field is
empty, everything else filled. -/
def c5data : Data := [("qx", .str ""), ("qy", .str "x"), ("qz", .str "x")]

/-- C5 code bug, evaluated at the failing input: `c5fx` is a field of the
current page (first column), it is visible, and it carries the only
validation issue — by the claim the next-page transition must block.  But
the page lookup runs with a warm per-page cache (issue resolution has
already called `getAllFields`), and the cache holds only the LAST column's
fields, so `isCurrentPageValid` never sees `c5fx`, reports the page valid,
and the transition advances and resets the attempt counter. -/
theorem c5_stale_cache_breaks_page_gating :
    getAllFieldsOnPage c5page0 = [c5fx, c5fy] ∧
    filterFieldsByConditions c5form c5data = .ok [c5fx, c5fy, c5fz] ∧
    validateIssues c5form c5data = .ok [⟨"qx", "qx required"⟩] ∧
    c5fx.«alias» = some "qx" ∧
    pageFieldsOf c5form 0 = [c5fy] ∧
    isCurrentPageValid c5form c5data 0 = .ok true ∧
    handleNextPage c5form c5data true ⟨0, 0⟩ = .ok ⟨1, 0⟩ :=
  ⟨rfl, rfl, rfl, rfl, rfl, rfl, rfl⟩

end UHF
